import Mathlib

/-!
Verification of the devops agent repository: a shallow embedding of the
Unix command emulator (unix_emulator.py), the task-store tool
(agent_tools.py), the history loader (utils.py) and the agent tool-calling
loop (agents.py), together with proofs settling the specification claims.
-/

set_option autoImplicit false

namespace DevOps

/-! ### Python string primitives

The emulator and the loop manipulate Python strings with strip / split /
startswith / substring containment.  These definitions reproduce the
Python semantics (ASCII whitespace) on Lean strings.
-/

/-- Single-quote character, used to build the error messages of the source. -/
def sq : String := String.mk [Char.ofNat 39]

/-- ASCII whitespace, as recognised by Python str.strip and str.split. -/
def pyIsSpace (c : Char) : Bool :=
  c = ' ' || c = '\t' || c = '\n' || c = Char.ofNat 13 || c = Char.ofNat 11 || c = Char.ofNat 12

/-- Remove the characters satisfying p from both ends of a character list. -/
def stripChars (p : Char → Bool) (l : List Char) : List Char :=
  ((l.dropWhile p).reverse.dropWhile p).reverse

/-- Python str.strip with no argument. -/
def pyStrip (s : String) : String := ⟨stripChars pyIsSpace s.data⟩

/-- Python str.strip with argument a slash. -/
def pyStripSlash (s : String) : String := ⟨stripChars (fun c => c = '/') s.data⟩

/-- Helper of pySplitWs: accumulates the current word in reverse. -/
def splitWsAux : List Char → List Char → List (List Char)
  | [], acc => if acc.isEmpty then [] else [acc.reverse]
  | c :: cs, acc =>
    if pyIsSpace c then
      if acc.isEmpty then splitWsAux cs []
      else acc.reverse :: splitWsAux cs []
    else splitWsAux cs (c :: acc)

/-- Python str.split with no argument: split on whitespace runs, no empty words. -/
def pySplitWs (s : String) : List String :=
  (splitWsAux s.data []).map fun l => ⟨l⟩

/-- Python str.split with maxsplit equal to one: at most two pieces, the
second piece keeps its internal and trailing whitespace. -/
def pySplitMax1 (s : String) : List String :=
  let l := s.data.dropWhile pyIsSpace
  if l.isEmpty then []
  else
    let w := l.takeWhile fun c => !(pyIsSpace c)
    let r := (l.dropWhile fun c => !(pyIsSpace c)).dropWhile pyIsSpace
    if r.isEmpty then [⟨w⟩] else [⟨w⟩, ⟨r⟩]

/-- Helper of pySplitSlash, accumulating the current piece in reverse. -/
def splitOnSlashAux : List Char → List Char → List (List Char)
  | [], acc => [acc.reverse]
  | c :: cs, acc =>
    if c = '/' then acc.reverse :: splitOnSlashAux cs []
    else splitOnSlashAux cs (c :: acc)

/-- Python str.split on a slash separator: keeps empty pieces. -/
def pySplitSlash (s : String) : List String :=
  (splitOnSlashAux s.data []).map fun l => ⟨l⟩

/-- Python s.startswith for a single-character test. -/
def firstCharIs (c : Char) (s : String) : Bool :=
  match s.data with
  | [] => false
  | d :: _ => d = c

/-- Substring containment on character lists (Python in operator on str). -/
def charsContain (needle : List Char) : List Char → Bool
  | [] => needle.isEmpty
  | c :: t => List.isPrefixOf needle (c :: t) || charsContain needle t

/-- Python substring containment needle in hay. -/
def pyContains (needle hay : String) : Bool := charsContain needle.data hay.data

/-! ### The emulated filesystem

unix_emulator.py represents the filesystem as nested dictionaries; every
entry (file or directory) is itself a dictionary.  We embed it as a
finitely branching tree of named nodes; the root of an EmState.fs is the
value stored under the top-level slash key of the Python dictionary.
-/

/-- Virtual filesystem node: an ordered association list of children. -/
inductive FS where
  | node : List (String × FS) → FS

/-- Children of a node. -/
def FS.entries : FS → List (String × FS)
  | .node es => es

/-- First child with the given name (Python dict lookup; names are unique
in histories produced by the source, so first-match is faithful). -/
def fsLookup : List (String × FS) → String → Option FS
  | [], _ => none
  | (k, v) :: rest, n => if k = n then some v else fsLookup rest n

/-- Walk of _path_exists: every part (empty parts included) must be a key. -/
def walkExists : FS → List String → Bool
  | _, [] => true
  | fs, p :: ps =>
    match fsLookup fs.entries p with
    | none => false
    | some child => walkExists child ps

/-- UnixEmulator._path_exists. -/
def pathExists (root : FS) (path : String) : Bool :=
  if path = "/" then true
  else walkExists root (pySplitSlash (pyStripSlash path))

/-- Walk of _get_dir_contents: empty parts are skipped. -/
def walkSkipEmpty : FS → List String → Option FS
  | fs, [] => some fs
  | fs, p :: ps =>
    if p = "" then walkSkipEmpty fs ps
    else
      match fsLookup fs.entries p with
      | none => none
      | some child => walkSkipEmpty child ps

/-- Error message of _get_dir_contents and _ls. -/
def lsError (path : String) : String :=
  "ls: cannot access " ++ sq ++ path ++ sq ++ ": No such file or directory"

/-- UnixEmulator._get_dir_contents: error string or the list of entry names. -/
def getDirContents (root : FS) (path : String) : Sum String (List String) :=
  if pathExists root path = false then .inl (lsError path)
  else
    match walkSkipEmpty root (pySplitSlash (pyStripSlash path)) with
    | none => .inl (lsError path)
    | some d => .inr (d.entries.map Prod.fst)

/-- Emulator state: filesystem tree plus current working directory. -/
structure EmState where
  fs : FS
  currentDir : String

/-- Default filesystem seeded by the constructor of UnixEmulator. -/
def defaultFs : FS :=
  .node [("home", .node [("pablo", .node [("motionapps", .node [])])])]

/-- Default emulator state: default tree, current directory /home/pablo. -/
def defaultEm : EmState := ⟨defaultFs, "/home/pablo"⟩

/-- Home directory constant used by _cd. -/
def homeDir : String := "/home/pablo"

/-- UnixEmulator._pwd. -/
def emPwd (st : EmState) (_args : String) : String × EmState :=
  (st.currentDir, st)

/-- One step of the dot-resolution loop of _cd: empty and dot segments are
skipped, dot-dot pops the last accumulated segment, anything else is kept. -/
def resolveStep (acc : List String) (part : String) : List String :=
  if part = "" || part = "." then acc
  else if part = ".." then acc.dropLast
  else acc ++ [part]

/-- Absolute path computed by _cd for a non-empty, non-tilde target:
absolute targets stand alone, relative ones are joined to the current
directory, then dot segments are resolved. -/
def cdResolve (cur target : String) : String :=
  let newPath :=
    if firstCharIs '/' target then target
    else if cur = "/" then "/" ++ target
    else cur ++ "/" ++ target
  "/" ++ String.intercalate "/" ((pySplitSlash newPath).foldl resolveStep [])

/-- Error message of _cd. -/
def cdError (target : String) : String :=
  "bash: cd: " ++ target ++ ": No such file or directory"

/-- UnixEmulator._cd. -/
def emCd (st : EmState) (args : String) : String × EmState :=
  let target := pyStrip args
  if target = "" || target = "~" then ("", ⟨st.fs, homeDir⟩)
  else
    let newPath := cdResolve st.currentDir target
    if pathExists st.fs newPath then ("", ⟨st.fs, newPath⟩)
    else (cdError target, st)

/-- Target-directory loop of _ls: the first argument word not starting
with a dash is the explicit target (joined to the current directory when
relative); with no such word the current directory is used. -/
def lsFirstTarget (cur : String) : List String → String
  | [] => cur
  | p :: ps =>
    if firstCharIs '-' p then lsFirstTarget cur ps
    else if firstCharIs '/' p then p
    else if cur = "/" then "/" ++ p
    else cur ++ "/" ++ p

/-- Strict lexicographic order on character lists by code point, the
comparison Python sorted uses on str. -/
def charListLt : List Char → List Char → Bool
  | [], [] => false
  | [], _ :: _ => true
  | _ :: _, [] => false
  | c :: cs, d :: ds =>
    if c.toNat < d.toNat then true
    else if d.toNat < c.toNat then false
    else charListLt cs ds

/-- Strict lexicographic order on strings by code point. -/
def strLtB (a b : String) : Bool := charListLt a.data b.data

/-- Insertion into a lexicographically sorted list of strings. -/
def insertStr (x : String) : List String → List String
  | [] => [x]
  | y :: ys => if strLtB y x then y :: insertStr x ys else x :: y :: ys

/-- Insertion sort on strings (Python sorted on a list of str). -/
def sortStrings : List String → List String
  | [] => []
  | x :: xs => insertStr x (sortStrings xs)

/-- UnixEmulator._ls. -/
def emLs (st : EmState) (args : String) : String × EmState :=
  let showHidden := pyContains "-a" args
  let targetDir := lsFirstTarget st.currentDir (pySplitWs args)
  match getDirContents st.fs targetDir with
  | .inl err => (err, st)
  | .inr names =>
    let names := if showHidden then names else names.filter fun n => !(firstCharIs '.' n)
    (String.intercalate "  " (sortStrings names), st)

/-- UnixEmulator._git_pull. -/
def emGitPull (st : EmState) (_args : String) : String × EmState :=
  ("Already up to date.", st)

/-- UnixEmulator._reboot. -/
def emReboot (st : EmState) (_args : String) : String × EmState :=
  ("Operation not permitted, must be run with sudo to work", st)

/-- UnixEmulator._sudo. -/
def emSudo (st : EmState) (args : String) : String × EmState :=
  match pySplitMax1 (pyStrip args) with
  | [] => ("Usage: sudo command [arguments]", st)
  | c :: _ =>
    if c = "reboot" then ("System is rebooting...", st)
    else ("sudo: command not found: " ++ c, st)

/-- Output of _uname for the stripped argument string.  Every branch of
the source returns its message with the state untouched, so the dispatch
is a pure string function. -/
def emUnameMsg (a : String) : String :=
  if a = "-a" then
    "Linux ubuntu-server 5.15.0-92-generic #102-Ubuntu SMP Wed Jan 10 09:33:48 UTC 2024 x86_64 x86_64 x86_64 GNU/Linux"
  else if a = "" then "Linux"
  else if a = "-s" then "Linux"
  else if a = "-n" then "ubuntu-server"
  else if a = "-r" then "5.15.0-92-generic"
  else if a = "-v" then "#102-Ubuntu SMP Wed Jan 10 09:33:48 UTC 2024"
  else if a = "-m" then "x86_64"
  else if a = "-p" then "x86_64"
  else if a = "-i" then "x86_64"
  else if a = "-o" then "GNU/Linux"
  else "uname: invalid option -- " ++ sq ++ a ++ sq ++ "\nTry " ++ sq ++ "uname --help" ++ sq ++ " for more information."

/-- UnixEmulator._uname. -/
def emUname (st : EmState) (args : String) : String × EmState :=
  (emUnameMsg (pyStrip args), st)

/-- UnixEmulator._whoami. -/
def emWhoami (st : EmState) (_args : String) : String × EmState :=
  ("pablo", st)

/-- Keys of the default command registry built in the constructor. -/
def builtinNames : List String :=
  ["pwd", "cd", "ls", "git pull", "reboot", "sudo", "uname", "whoami"]

/-- Membership in the default command registry. -/
def isBuiltin (n : String) : Bool := builtinNames.contains n

/-- Dispatch to the registered handler (only called on registered names). -/
def runBuiltin (n : String) (st : EmState) (args : String) : String × EmState :=
  if n = "pwd" then emPwd st args
  else if n = "cd" then emCd st args
  else if n = "ls" then emLs st args
  else if n = "git pull" then emGitPull st args
  else if n = "reboot" then emReboot st args
  else if n = "sudo" then emSudo st args
  else if n = "uname" then emUname st args
  else emWhoami st args

/-- Base-command and argument extraction of UnixEmulator.execute,
including the special case for git sub-commands.  Returns none exactly
when Python raises an IndexError: on a whitespace-only command line. -/
def baseAndArgs (command : String) : Option (String × String) :=
  match pySplitMax1 (pyStrip command) with
  | [] => none
  | [b] => some (b, "")
  | b :: rest :: _ =>
    if b = "git" then
      match pySplitWs rest with
      | [] => none
      | w :: ws => some ("git " ++ w, String.intercalate " " ws)
    else some (b, rest)

/-- UnixEmulator.execute on the default registry; none models an uncaught
Python exception. -/
def execute (st : EmState) (command : String) : Option (String × EmState) :=
  match baseAndArgs command with
  | none => none
  | some (base, args) =>
    if isBuiltin base then some (runBuiltin base st args)
    else if isBuiltin command then some (runBuiltin command st "")
    else some ("Command not found: " ++ base, st)

/-! ### The task store tool

AgentTools.update_tasks persists one JSON document per task under
tasks/{name}.json.  We embed the collection of task files as an
association list from task name to document (a flat key-to-value
abstraction of the JSON object), plus a fault-injection flag: writeOk set
to false makes every filesystem write or removal raise, which the source
catches and renders as an error string built from str(e); the embedding
renders that exception text as a fixed placeholder.
-/

/-- Persisted task document: JSON object abstracted as a key-value list. -/
def TaskDoc := List (String × String)

/-- Task store: the tasks directory plus a persistence-fault flag. -/
structure TaskStore where
  files : List (String × TaskDoc)
  writeOk : Bool

/-- First value bound to a key in an association list. -/
def assocLookup {α : Type} : List (String × α) → String → Option α
  | [], _ => none
  | (k, v) :: rest, n => if k = n then some v else assocLookup rest n

/-- Python dict assignment d[k] = v: update in place, or append a new key. -/
def assocSet {α : Type} (l : List (String × α)) (k : String) (v : α) : List (String × α) :=
  if (assocLookup l k).isSome then
    l.map fun p => if p.1 = k then (k, v) else p
  else l ++ [(k, v)]

/-- Removal of a key from an association list (os.remove of a task file). -/
def assocRemove {α : Type} (l : List (String × α)) (k : String) : List (String × α) :=
  l.filter fun p => !(p.1 = k)

/-- AgentTools.update_tasks.  The argument taskData is none when the Python
caller leaves task_data unsupplied (None); the result is none exactly when
the Python call raises: the source executes the item assignment
task_data["intent_name"] = task_name before any None check, so a none
taskData raises TypeError for every action.  Persistence faults (writeOk
false) are caught by the source and rendered as error strings. -/
def update_tasks (action taskName : String) (taskData : Option TaskDoc)
    (store : TaskStore) : Option (String × TaskStore) :=
  match taskData with
  | none => none
  | some d0 =>
    let d := assocSet d0 "intent_name" taskName
    if action = "delete" then
      if (assocLookup store.files taskName).isSome then
        if store.writeOk then
          some ("Task " ++ sq ++ taskName ++ sq ++ " deleted successfully",
                ⟨assocRemove store.files taskName, store.writeOk⟩)
        else
          some ("Failed to delete task " ++ sq ++ taskName ++ sq ++ ": persistence fault",
                store)
      else
        some ("Task " ++ sq ++ taskName ++ sq ++ " not found", store)
    else if action = "add" && (assocLookup store.files taskName).isSome then
      some ("Error: Task " ++ sq ++ taskName ++ sq ++ " already exists", store)
    else if action = "edit" && !(assocLookup store.files taskName).isSome then
      some ("Error: Task " ++ sq ++ taskName ++ sq ++ " not found", store)
    else
      if store.writeOk then
        some ("Task " ++ sq ++ taskName ++ sq ++ " " ++ action ++ "ed successfully",
              ⟨assocSet store.files taskName d, store.writeOk⟩)
      else
        some ("Failed to " ++ action ++ " task " ++ sq ++ taskName ++ sq ++ ": persistence fault",
              store)

/-! ### Conversation history

The persisted history document is an array of turns, each a role with a
payload that is either a plain string or a list of content blocks. -/

/-- Turn role. -/
inductive Role where
  | user
  | assistant
deriving DecidableEq, Repr

/-- Structured content block inside a turn payload. -/
inductive HBlock where
  | text (s : String)
  | toolUse (name id input : String)
  | toolResult (toolUseId content : String)
deriving DecidableEq, Repr

/-- Turn payload: plain string or a list of content blocks. -/
inductive TurnContent where
  | str (s : String)
  | blocks (bs : List HBlock)
deriving DecidableEq, Repr

/-- One turn of the conversation history. -/
structure Turn where
  role : Role
  content : TurnContent
deriving DecidableEq, Repr

/-- True when the first content block of the turn is a tool result; none
when evaluating the Python condition raises (content an empty list, so
content[0] is an IndexError). -/
def startsToolResult (t : Turn) : Option Bool :=
  match t.content with
  | .str _ => some false
  | .blocks [] => none
  | .blocks (b :: _) =>
    match b with
    | .toolResult _ _ => some true
    | _ => some false

/-- One pass of the while-True loop of read_history_from_file.  The pass
checks the head role (dropping a non-user head), then checks the current
head content for a leading tool-result block (dropping it too); it
reports the new window and whether shall_break remained true, so the two
possible drops of one Python pass are both taken here.  none models an
IndexError: an empty window at either check, or an empty block list. -/
def trimPass (l : List Turn) : Option (List Turn × Bool) :=
  match l with
  | [] => none
  | t :: rest =>
    if t.role = Role.user then
      match startsToolResult t with
      | none => none
      | some true => some (rest, false)
      | some false => some (t :: rest, true)
    else
      match rest with
      | [] => none
      | u :: rest1 =>
        match startsToolResult u with
        | none => none
        | some true => some (rest1, false)
        | some false => some (u :: rest1, false)

/-- The while-True trimming loop, driven by fuel; fuel larger than the
window length never runs out (each non-breaking pass drops a turn). -/
def trimLoop : Nat → List Turn → Option (List Turn)
  | 0, _ => none
  | fuel + 1, l =>
    match trimPass l with
    | none => none
    | some (l', brk) => if brk then some l' else trimLoop fuel l'

/-- The last n elements of a list (Python negative slicing). -/
def lastN {α : Type} (n : Nat) (l : List α) : List α := l.drop (l.length - n)

/-- read_history_from_file on an existing file: the parsed argument is
none when json.load raises JSONDecodeError (caught, empty history
returned); the result is none when the trimming loop raises an uncaught
IndexError. -/
def read_history_from_file (parsed : Option (List Turn)) : Option (List Turn) :=
  match parsed with
  | none => some []
  | some h => trimLoop (h.length + 1) (lastN 10 h)

/-! ### The agent loop

Agent.run_agent_loop is embedded as a deterministic function of a loop
environment: the completion provider is a function from the iteration
index to the completion content blocks, and the tool executors are
functions from the request payload to the result string (their outputs
are opaque to the loop).  For send_message the payload is the message
text, for run_shell the command. -/

/-- Content block of one LLM completion. -/
inductive RespBlock where
  | toolUse (name id input : String)
  | text (s : String)
  | other

/-- Loop environment: scripted completion provider and tool executors. -/
structure LoopEnv where
  respond : Nat → List RespBlock
  runShell : String → String
  updateTasksRes : String → String
  listTasksRes : String
  taskDetailsRes : String → String

/-- Mutable state of one run_agent_loop invocation. -/
structure LoopState where
  history : List Turn
  msgs : List String
  doLoop : Bool

/-- Processing of one completion content block, with the appends and
do_loop updates of the source: tool-use blocks append the assistant
tool-use turn then a user tool-result turn; run_shell, update_tasks,
list_tasks and get_task_details set do_loop; text blocks append a lone
assistant turn; unknown names and block types do nothing. -/
def procBlock (env : LoopEnv) (st : LoopState) (c : RespBlock) : LoopState :=
  match c with
  | .toolUse nm id input =>
    if nm = "send_message" then
      { st with
        msgs := st.msgs ++ [input],
        history := st.history ++
          [⟨.assistant, .blocks [.toolUse nm id input]⟩,
           ⟨.user, .blocks [.toolResult id "Message sent"]⟩] }
    else if nm = "run_shell" then
      { st with
        msgs := st.msgs ++ ["[DEBUG LOG] RUNNING SHELL COMMAND: " ++ input],
        history := st.history ++
          [⟨.assistant, .blocks [.toolUse nm id input]⟩,
           ⟨.user, .blocks [.toolResult id (env.runShell input)]⟩],
        doLoop := true }
    else if nm = "update_tasks" then
      { st with
        history := st.history ++
          [⟨.assistant, .blocks [.toolUse nm id input]⟩,
           ⟨.user, .blocks [.toolResult id (env.updateTasksRes input)]⟩],
        doLoop := true }
    else if nm = "list_tasks" then
      { st with
        history := st.history ++
          [⟨.assistant, .blocks [.toolUse nm id input]⟩,
           ⟨.user, .blocks [.toolResult id env.listTasksRes]⟩],
        doLoop := true }
    else if nm = "get_task_details" then
      { st with
        history := st.history ++
          [⟨.assistant, .blocks [.toolUse nm id input]⟩,
           ⟨.user, .blocks [.toolResult id (env.taskDetailsRes input)]⟩],
        doLoop := true }
    else st
  | .text s =>
    { st with
      msgs := st.msgs ++ [s],
      history := st.history ++ [⟨.assistant, .blocks [.text s]⟩] }
  | .other => st

/-- One iteration body: reset do_loop, append the user turn (the true
input on iteration zero, the synthetic continue prompt afterwards), then
process every completion block in order. -/
def runIteration (env : LoopEnv) (userInput : String) (st : LoopState) (it : Nat) : LoopState :=
  let input := if it = 0 then userInput else "Next action:"
  let st1 : LoopState :=
    { st with doLoop := false, history := st.history ++ [⟨.user, .str input⟩] }
  (env.respond it).foldl (procBlock env) st1

/-- The for-loop over range(max_iterations) with its break on a false
do_loop.  Arguments: remaining fuel, next index, state.  Returns the final
state, the final value of the Python loop variable it, and the number of
iteration bodies executed. -/
def loopFrom (env : LoopEnv) (userInput : String) :
    Nat → Nat → LoopState → LoopState × Nat × Nat
  | 0, it, st => (st, it - 1, 0)
  | fuel + 1, it, st =>
    if st.doLoop = false then (st, it, 0)
    else
      let st' := runIteration env userInput st it
      let r := loopFrom env userInput fuel (it + 1) st'
      (r.1, r.2.1, r.2.2 + 1)

/-- Iteration cap of run_agent_loop. -/
def maxIterations : Nat := 12

/-- Result of one run_agent_loop invocation: outbound messages, updated
history, number of iterations executed, and whether the exhaustion notice
was logged (the final loop variable reached max_iterations - 1). -/
structure LoopResult where
  msgs : List String
  history : List Turn
  iterations : Nat
  exhausted : Bool

/-- Python condition history and history[-1] role equal to user: a
non-empty history whose final turn is user-authored. -/
def endsWithUser (h : List Turn) : Bool :=
  match h.getLast? with
  | some t => t.role = Role.user
  | none => false

/-- Agent.run_agent_loop: run the bounded loop, then repair the tail:
when the final history turn is user-authored a fixed placeholder
assistant turn is appended. -/
def run_agent_loop (env : LoopEnv) (userInput : String) (history0 : List Turn) : LoopResult :=
  let r := loopFrom env userInput maxIterations 0 ⟨history0, [], true⟩
  let st := r.1
  let finalHistory :=
    if endsWithUser st.history then
      st.history ++ [⟨.assistant, .blocks [.text "waiting for more messages"]⟩]
    else st.history
  ⟨st.msgs, finalHistory, r.2.2, r.2.1 = maxIterations - 1⟩

/-! ### Spec-side definitions and instrumentation

Definitions in this section either restate a contract in the words of the
specification (for comparison against the code-side definitions above) or
name an observable used by the claims. -/

/-- Completion blocks that set do_loop in the source: run_shell,
update_tasks, list_tasks and get_task_details tool uses. -/
def setsContinue : RespBlock → Bool
  | .toolUse nm _ _ =>
    nm = "run_shell" || nm = "update_tasks" || nm = "list_tasks" || nm = "get_task_details"
  | _ => false

/-- A run_shell tool-use block. -/
def isRunShellBlock : RespBlock → Bool
  | .toolUse nm _ _ => nm = "run_shell"
  | _ => false

/-- Two consecutive turns of the same role somewhere in the history. -/
def hasConsecSameRole : List Turn → Bool
  | t1 :: t2 :: rest => decide (t1.role = t2.role) || hasConsecSameRole (t2 :: rest)
  | _ => false

/-- Scripted completion provider refuting the alternation claim: the
first completion requests run_shell, the second requests send_message. -/
def cexEnv : LoopEnv :=
  ⟨fun it => if it = 0 then [.toolUse "run_shell" "t1" "ls"] else [.toolUse "send_message" "t2" "done"],
   fun c => c, fun _ => "ok", "tasks", fun _ => "details"⟩

/-- Completion provider that requests run_shell on every completion. -/
def shellEnv : LoopEnv :=
  ⟨fun _ => [.toolUse "run_shell" "i" "pwd"], fun c => c, fun _ => "ok", "tasks", fun _ => "details"⟩

/-- True when the first content block of the turn is a tool-result block,
taking a string payload or an empty block list as not tool-result
(total spec-side reading of the trimming predicate). -/
def startsTR (t : Turn) : Bool :=
  match t.content with
  | .blocks (.toolResult _ _ :: _) => true
  | _ => false

/-- A turn the loader must drop from the front of the window: role not
user, or content beginning with a tool-result block. -/
def badTurn (t : Turn) : Bool :=
  !(decide (t.role = Role.user)) || startsTR t

/-- Content that the trimming code can examine without raising: a plain
string or a non-empty block list. -/
def contentWF (t : Turn) : Bool :=
  match t.content with
  | .blocks [] => false
  | _ => true

/-- The loaded window as the spec words it: at most the ten most recent
turns, with leading turns dropped until the first remaining turn has role
user and its content does not begin with a tool-result block. -/
def historyWindowSpec (h : List Turn) : List Turn :=
  (lastN 10 h).dropWhile badTurn

/-- Dot-segment resolution as the spec words it, processed left to right
on a stack (most recent segment first): empty and dot segments are
no-ops, dot-dot pops one segment, other segments are pushed. -/
def stackRun : List String → List String → List String
  | [], stack => stack
  | p :: ps, stack =>
    if p = "" || p = "." then stackRun ps stack
    else if p = ".." then stackRun ps stack.tail
    else stackRun ps (p :: stack)

/-- Absolute target path of cd as the spec words it: an absolute target
stands alone, a relative one is joined to the current directory; the
segments are then normalised by the stack discipline of stackRun. -/
def cdSpecResolve (cur t : String) : String :=
  let joined :=
    if firstCharIs '/' t then t
    else if cur = "/" then "/" ++ t
    else cur ++ "/" ++ t
  "/" ++ String.intercalate "/" (stackRun (pySplitSlash joined) []).reverse

/-- The cd contract as the spec words it: empty or tilde resets to the
fixed home path; otherwise the resolved absolute path is validated
against the filesystem: if present the current directory is updated and
the empty string returned, if absent an error message is returned and the
state kept. -/
def cdSpecFn (st : EmState) (args : String) : String × EmState :=
  let t := pyStrip args
  if t = "" || t = "~" then ("", ⟨st.fs, homeDir⟩)
  else
    let abs := cdSpecResolve st.currentDir t
    if pathExists st.fs abs then ("", ⟨st.fs, abs⟩)
    else (cdError t, st)

/-- The ls contract exactly as the claim states it: the first argument
word not starting with a dash is the explicit target, resolved the same
way cd resolves its argument (dot-segment normalisation included),
defaulting to the current directory; entries are sorted, hidden names
are dropped without -a, and a missing path yields an error string. -/
def lsClaimCdStyle (st : EmState) (args : String) : String × EmState :=
  let showHidden := pyContains "-a" args
  let targetDir :=
    match (pySplitWs args).find? (fun p => !(firstCharIs '-' p)) with
    | none => st.currentDir
    | some p => cdResolve st.currentDir p
  match getDirContents st.fs targetDir with
  | .inl err => (err, st)
  | .inr names =>
    let names := if showHidden then names else names.filter fun n => !(firstCharIs '.' n)
    (String.intercalate "  " (sortStrings names), st)

/-- The ls contract as amended: the explicit target (first argument word
not starting with a dash, defaulting to the current directory) is taken
absolute when it starts with a slash and is otherwise joined to the
current directory without any dot-segment normalisation; entries at the
resolved path are sorted lexicographically and joined, names starting
with a dot are dropped unless -a occurs in the argument string, and a
missing path yields an error string with the state unchanged. -/
def lsSpecFn (st : EmState) (args : String) : String × EmState :=
  let showHidden := pyContains "-a" args
  let targetDir :=
    match (pySplitWs args).find? (fun p => !(firstCharIs '-' p)) with
    | none => st.currentDir
    | some p =>
      if firstCharIs '/' p then p
      else if st.currentDir = "/" then "/" ++ p
      else st.currentDir ++ "/" ++ p
  match getDirContents st.fs targetDir with
  | .inl err => (err, st)
  | .inr names =>
    let names := if showHidden then names else names.filter fun n => !(firstCharIs '.' n)
    (String.intercalate "  " (sortStrings names), st)

/-- Example filesystem of the spec: a repository directory holding a
hidden .git entry and README.md. -/
def repoFs : FS :=
  .node [("home", .node [("pablo", .node [("motionapps",
    .node [(".git", .node []), ("README.md", .node [])])])])]

/-- Emulator state sitting inside the example repository directory. -/
def repoEm : EmState := ⟨repoFs, "/home/pablo/motionapps"⟩

/-- True when execute dispatches the command line to the cd handler,
either through its base command or through the whole-line lookup. -/
def dispatchedCd (cmd : String) : Bool :=
  match baseAndArgs cmd with
  | none => false
  | some (b, _) =>
    if isBuiltin b then b = "cd"
    else if isBuiltin cmd then cmd = "cd"
    else false

/-! ### Lemmas about the agent loop -/

theorem procBlock_doLoop (env : LoopEnv) (st : LoopState) (c : RespBlock) :
    (procBlock env st c).doLoop = (st.doLoop || setsContinue c) := by
  cases c with
  | toolUse nm id input =>
    simp only [procBlock, setsContinue]
    split_ifs <;> simp_all
  | text s => simp [procBlock, setsContinue]
  | other => simp [procBlock, setsContinue]

theorem procBlock_history (env : LoopEnv) (st : LoopState) (c : RespBlock) :
    ∃ l, (procBlock env st c).history = st.history ++ l := by
  cases c with
  | toolUse nm id input =>
    simp only [procBlock]
    split_ifs <;> first | exact ⟨_, rfl⟩ | exact ⟨[], by simp⟩
  | text s => exact ⟨_, rfl⟩
  | other => exact ⟨[], by simp [procBlock]⟩

theorem foldl_procBlock_doLoop (env : LoopEnv) :
    ∀ (bs : List RespBlock) (st : LoopState),
    (bs.foldl (procBlock env) st).doLoop = (st.doLoop || bs.any setsContinue) := by
  intro bs
  induction bs with
  | nil => intro st; simp
  | cons c cs ih =>
    intro st
    rw [List.foldl_cons, ih, procBlock_doLoop, List.any_cons, Bool.or_assoc]

theorem foldl_procBlock_history (env : LoopEnv) :
    ∀ (bs : List RespBlock) (st : LoopState),
    ∃ l, (bs.foldl (procBlock env) st).history = st.history ++ l := by
  intro bs
  induction bs with
  | nil => intro st; exact ⟨[], by simp⟩
  | cons c cs ih =>
    intro st
    obtain ⟨l1, h1⟩ := procBlock_history env st c
    obtain ⟨l2, h2⟩ := ih (procBlock env st c)
    exact ⟨l1 ++ l2, by rw [List.foldl_cons, h2, h1, List.append_assoc]⟩

theorem runIteration_doLoop (env : LoopEnv) (ui : String) (st : LoopState) (it : Nat) :
    (runIteration env ui st it).doLoop = (env.respond it).any setsContinue := by
  unfold runIteration
  rw [foldl_procBlock_doLoop]
  simp

theorem runIteration_history (env : LoopEnv) (ui : String) (st : LoopState) (it : Nat) :
    ∃ l, (runIteration env ui st it).history =
      st.history ++ (⟨Role.user, TurnContent.str (if it = 0 then ui else "Next action:")⟩ :: l) := by
  simp only [runIteration]
  obtain ⟨l, hl⟩ := foldl_procBlock_history env (env.respond it)
    ⟨st.history ++ [⟨Role.user, TurnContent.str (if it = 0 then ui else "Next action:")⟩],
     st.msgs, false⟩
  exact ⟨l, by rw [hl]; simp⟩

theorem loopFrom_zero (env : LoopEnv) (ui : String) (it : Nat) (st : LoopState) :
    loopFrom env ui 0 it st = (st, it - 1, 0) := rfl

theorem loopFrom_succ_false (env : LoopEnv) (ui : String) (f it : Nat) (st : LoopState)
    (hd : st.doLoop = false) : loopFrom env ui (f + 1) it st = (st, it, 0) := by
  simp [loopFrom, hd]

theorem loopFrom_succ_true (env : LoopEnv) (ui : String) (f it : Nat) (st : LoopState)
    (hd : st.doLoop = true) :
    loopFrom env ui (f + 1) it st =
      ((loopFrom env ui f (it + 1) (runIteration env ui st it)).1,
       (loopFrom env ui f (it + 1) (runIteration env ui st it)).2.1,
       (loopFrom env ui f (it + 1) (runIteration env ui st it)).2.2 + 1) := by
  simp [loopFrom, hd]

theorem loopFrom_iterations_le (env : LoopEnv) (ui : String) :
    ∀ (fuel it : Nat) (st : LoopState), (loopFrom env ui fuel it st).2.2 ≤ fuel := by
  intro fuel
  induction fuel with
  | zero => intro it st; simp [loopFrom_zero]
  | succ f ih =>
    intro it st
    by_cases hd : st.doLoop = false
    · rw [loopFrom_succ_false env ui f it st hd]
      simp
    · rw [loopFrom_succ_true env ui f it st (by revert hd; cases st.doLoop <;> simp)]
      exact Nat.succ_le_succ (ih (it + 1) _)

theorem loopFrom_stop (env : LoopEnv) (ui : String) (fuel it : Nat) (st : LoopState)
    (h : st.doLoop = false) : (loopFrom env ui fuel it st).2.2 = 0 := by
  cases fuel with
  | zero => simp [loopFrom_zero]
  | succ f => simp [loopFrom_succ_false env ui f it st h]

theorem loopFrom_all_continue (env : LoopEnv) (ui : String)
    (hall : ∀ j, (env.respond j).any setsContinue = true) :
    ∀ (fuel it : Nat) (st : LoopState), st.doLoop = true →
    (loopFrom env ui fuel it st).2.2 = fuel ∧
    (loopFrom env ui fuel it st).2.1 = it + fuel - 1 := by
  intro fuel
  induction fuel with
  | zero => intro it st _; simp [loopFrom_zero]
  | succ f ih =>
    intro it st h
    have hd : (runIteration env ui st it).doLoop = true := by
      rw [runIteration_doLoop]; exact hall it
    obtain ⟨h1, h2⟩ := ih (it + 1) (runIteration env ui st it) hd
    rw [loopFrom_succ_true env ui f it st h]
    constructor
    · show (loopFrom env ui f (it + 1) (runIteration env ui st it)).2.2 + 1 = f + 1
      omega
    · show (loopFrom env ui f (it + 1) (runIteration env ui st it)).2.1 = it + (f + 1) - 1
      omega

theorem loopFrom_k_bound (env : LoopEnv) (ui : String) (k : Nat)
    (hk : (env.respond k).any setsContinue = false) :
    ∀ (fuel it : Nat) (st : LoopState), it ≤ k →
    (loopFrom env ui fuel it st).2.2 ≤ k + 1 - it := by
  intro fuel
  induction fuel with
  | zero => intro it st _; simp [loopFrom_zero]
  | succ f ih =>
    intro it st hit
    by_cases hd : st.doLoop = false
    · rw [loopFrom_succ_false env ui f it st hd]
      simp
    · rw [loopFrom_succ_true env ui f it st (by revert hd; cases st.doLoop <;> simp)]
      have hle : (loopFrom env ui (f + 1) it st).2.2 ≤ f + 1 := loopFrom_iterations_le env ui _ it st
      by_cases hik : it = k
      · subst hik
        have hst' : (runIteration env ui st it).doLoop = false := by
          rw [runIteration_doLoop]; exact hk
        have h0 := loopFrom_stop env ui f (it + 1) _ hst'
        show (loopFrom env ui f (it + 1) (runIteration env ui st it)).2.2 + 1 ≤ it + 1 - it
        omega
      · have hrec := ih (it + 1) (runIteration env ui st it) (by omega)
        show (loopFrom env ui f (it + 1) (runIteration env ui st it)).2.2 + 1 ≤ k + 1 - it
        omega

theorem loopFrom_history (env : LoopEnv) (ui : String) :
    ∀ (fuel it : Nat) (st : LoopState),
    ∃ l, (loopFrom env ui fuel it st).1.history = st.history ++ l := by
  intro fuel
  induction fuel with
  | zero => intro it st; exact ⟨[], by simp [loopFrom_zero]⟩
  | succ f ih =>
    intro it st
    by_cases hd : st.doLoop = false
    · rw [loopFrom_succ_false env ui f it st hd]
      exact ⟨[], by simp⟩
    · rw [loopFrom_succ_true env ui f it st (by revert hd; cases st.doLoop <;> simp)]
      obtain ⟨l1, h1⟩ := runIteration_history env ui st it
      obtain ⟨l2, h2⟩ := ih (it + 1) (runIteration env ui st it)
      refine ⟨(⟨Role.user, TurnContent.str (if it = 0 then ui else "Next action:")⟩ :: l1) ++ l2, ?_⟩
      show (loopFrom env ui f (it + 1) (runIteration env ui st it)).1.history = _
      rw [h2, h1, List.append_assoc]

theorem loopFrom_history_ne_nil (env : LoopEnv) (ui : String) (fuel it : Nat)
    (st : LoopState) (hd : st.doLoop = true) (hf : fuel ≠ 0) :
    ∃ t l, (loopFrom env ui fuel it st).1.history = st.history ++ (t :: l) := by
  cases fuel with
  | zero => exact absurd rfl hf
  | succ f =>
    rw [loopFrom_succ_true env ui f it st hd]
    obtain ⟨l1, h1⟩ := runIteration_history env ui st it
    obtain ⟨l2, h2⟩ := loopFrom_history env ui f (it + 1) (runIteration env ui st it)
    refine ⟨⟨Role.user, TurnContent.str (if it = 0 then ui else "Next action:")⟩, l1 ++ l2, ?_⟩
    show (loopFrom env ui f (it + 1) (runIteration env ui st it)).1.history = _
    rw [h2, h1, List.append_assoc, List.cons_append]

theorem any_isRunShell_setsContinue (bs : List RespBlock)
    (h : bs.any isRunShellBlock = true) : bs.any setsContinue = true := by
  rw [List.any_eq_true] at h ⊢
  obtain ⟨b, hb, hrs⟩ := h
  refine ⟨b, hb, ?_⟩
  cases b with
  | toolUse nm id input =>
    simp only [isRunShellBlock] at hrs
    simp [setsContinue, hrs]
  | text s => simp [isRunShellBlock] at hrs
  | other => simp [isRunShellBlock] at hrs

/-! ### Claim theorems: the agent loop -/

/-- C1 (code bug): the alternation claim fails on the code.  With the
completion script cexEnv (first completion requests run_shell, second
requests send_message) the loop appends the user tool-result turn of
iteration zero and then the synthetic continue user turn of iteration one
back to back, so the returned history holds two consecutive user turns;
the comments in run_agent_loop state that alternation is required by the
completion protocol, so the code contradicts its own documentation. -/
theorem alternation_violated :
    (run_agent_loop cexEnv "deploy" []).history.map Turn.role =
      [Role.user, Role.assistant, Role.user, Role.user,
       Role.assistant, Role.user, Role.assistant] ∧
    hasConsecSameRole (run_agent_loop cexEnv "deploy" []).history = true :=
  ⟨rfl, rfl⟩

/-- C2: run_agent_loop executes at most twelve iterations for every
environment; a provider requesting run_shell on every completion drives
it to exactly twelve iterations with the exhaustion notice logged; and
when the completion of iteration k sets no continue flag the loop stops
with at most k + 1 iterations executed. -/
theorem agent_loop_bounded (env : LoopEnv) (ui : String) (h0 : List Turn) :
    (run_agent_loop env ui h0).iterations ≤ maxIterations ∧
    ((∀ it, (env.respond it).any isRunShellBlock = true) →
      (run_agent_loop env ui h0).iterations = maxIterations ∧
      (run_agent_loop env ui h0).exhausted = true) ∧
    (∀ k, (env.respond k).any setsContinue = false →
      (run_agent_loop env ui h0).iterations ≤ k + 1) := by
  refine ⟨?_, ?_, ?_⟩
  · show (loopFrom env ui maxIterations 0 ⟨h0, [], true⟩).2.2 ≤ maxIterations
    exact loopFrom_iterations_le env ui maxIterations 0 _
  · intro hall
    have hall' : ∀ j, (env.respond j).any setsContinue = true :=
      fun j => any_isRunShell_setsContinue _ (hall j)
    obtain ⟨h1, h2⟩ :=
      loopFrom_all_continue env ui hall' maxIterations 0 ⟨h0, [], true⟩ rfl
    constructor
    · show (loopFrom env ui maxIterations 0 ⟨h0, [], true⟩).2.2 = maxIterations
      exact h1
    · show decide ((loopFrom env ui maxIterations 0 ⟨h0, [], true⟩).2.1 = maxIterations - 1) = true
      simp [h2]
  · intro k hk
    show (loopFrom env ui maxIterations 0 ⟨h0, [], true⟩).2.2 ≤ k + 1
    have := loopFrom_k_bound env ui k hk maxIterations 0 ⟨h0, [], true⟩ (Nat.zero_le k)
    omega

/-- C9: at every exit of run_agent_loop the returned history is non-empty
and its final turn has the assistant role, because a trailing user turn is
repaired by appending the fixed placeholder assistant turn. -/
theorem run_agent_loop_ends_assistant (env : LoopEnv) (ui : String) (h0 : List Turn) :
    (run_agent_loop env ui h0).history.getLast?.map Turn.role = some Role.assistant := by
  obtain ⟨t, l, hl⟩ :=
    loopFrom_history_ne_nil env ui maxIterations 0 ⟨h0, [], true⟩ rfl (by decide)
  show (if endsWithUser (loopFrom env ui maxIterations 0 ⟨h0, [], true⟩).1.history then
      (loopFrom env ui maxIterations 0 ⟨h0, [], true⟩).1.history ++
        [⟨Role.assistant, TurnContent.blocks [HBlock.text "waiting for more messages"]⟩]
    else
      (loopFrom env ui maxIterations 0 ⟨h0, [], true⟩).1.history).getLast?.map Turn.role =
    some Role.assistant
  by_cases hu : endsWithUser (loopFrom env ui maxIterations 0 ⟨h0, [], true⟩).1.history = true
  · rw [if_pos hu, List.getLast?_concat]
    rfl
  · rw [if_neg hu]
    rw [hl] at hu ⊢
    have hx : ((h0 : List Turn) ++ t :: l).getLast? =
        some ((t :: l).getLast (List.cons_ne_nil t l)) := by
      rw [List.getLast?_append_cons]
      exact List.getLast?_eq_getLast_of_ne_nil (List.cons_ne_nil t l)
    have hrole : ((t :: l).getLast (List.cons_ne_nil t l)).role = Role.assistant := by
      cases hr : ((t :: l).getLast (List.cons_ne_nil t l)).role with
      | user =>
        exfalso
        apply hu
        unfold endsWithUser
        rw [hx]
        simp [hr]
      | assistant => rfl
    rw [hx]
    simp [hrole]

/-! ### Claim theorems: the task store -/

/-- C3 (code bug): update_tasks with action add or edit and no task data
supplied does not return a descriptive error string: the source executes
the item assignment on task_data before its None check, so the call
raises TypeError (modelled by none); the same happens for delete. -/
theorem update_tasks_none_raises :
    update_tasks "add" "demo" none ⟨[], true⟩ = none ∧
    update_tasks "edit" "demo" none ⟨[], true⟩ = none ∧
    update_tasks "delete" "demo" none ⟨[], true⟩ = none :=
  ⟨rfl, rfl, rfl⟩

/-- C8: update_tasks leaves the store untouched and reports an error both
when adding a task whose name already exists and when editing a task
whose name does not exist. -/
theorem update_tasks_add_edit_guard (store : TaskStore) (name : String) (d : TaskDoc) :
    ((assocLookup store.files name).isSome = true →
      update_tasks "add" name (some d) store =
        some ("Error: Task " ++ sq ++ name ++ sq ++ " already exists", store)) ∧
    ((assocLookup store.files name).isSome = false →
      update_tasks "edit" name (some d) store =
        some ("Error: Task " ++ sq ++ name ++ sq ++ " not found", store)) := by
  constructor
  · intro h
    simp [update_tasks, h]
  · intro h
    simp [update_tasks, h]

/-- Witness for C8: adding the existing task demo fails without mutating
the single-document store, and editing the absent task demo on the empty
store fails without creating it. -/
theorem update_tasks_add_edit_guard_witness :
    update_tasks "add" "demo" (some []) ⟨[("demo", [])], true⟩ =
      some ("Error: Task " ++ sq ++ "demo" ++ sq ++ " already exists", ⟨[("demo", [])], true⟩) ∧
    update_tasks "edit" "demo" (some []) ⟨[], true⟩ =
      some ("Error: Task " ++ sq ++ "demo" ++ sq ++ " not found", ⟨[], true⟩) :=
  ⟨(update_tasks_add_edit_guard ⟨[("demo", [])], true⟩ "demo" []).1 rfl,
   (update_tasks_add_edit_guard ⟨[], true⟩ "demo" []).2 rfl⟩

/-- Witness for C2: shellEnv requests run_shell on every completion; the
loop executes exactly twelve iterations and logs the exhaustion notice. -/
theorem agent_loop_bounded_witness :
    (run_agent_loop shellEnv "hi" []).iterations = maxIterations ∧
    (run_agent_loop shellEnv "hi" []).exhausted = true :=
  (agent_loop_bounded shellEnv "hi" []).2.1 (fun _ => rfl)

/-! ### Claim theorems: the history loader -/

theorem startsToolResult_eq (t : Turn) (h : contentWF t = true) :
    startsToolResult t = some (startsTR t) := by
  cases t with
  | mk role content =>
    cases content with
    | str s => rfl
    | blocks bs =>
      cases bs with
      | nil => simp [contentWF] at h
      | cons b bs' => cases b <;> rfl

theorem trimLoop_eq_dropWhile :
    ∀ (fuel : Nat) (l : List Turn), l.length < fuel →
    (∀ t ∈ l, contentWF t = true) →
    (∃ t ∈ l, badTurn t = false) →
    trimLoop fuel l = some (l.dropWhile badTurn) := by
  intro fuel
  induction fuel with
  | zero => intro l h _ _; omega
  | succ f ih =>
    intro l hlen hwf hgood
    cases l with
    | nil => simp at hgood
    | cons t rest =>
      by_cases hrole : t.role = Role.user
      · have hst : startsToolResult t = some (startsTR t) :=
          startsToolResult_eq t (hwf t (by simp))
        by_cases htr : startsTR t = true
        · have hbad : badTurn t = true := by simp [badTurn, htr]
          have hpass : trimPass (t :: rest) = some (rest, false) := by
            simp [trimPass, hrole, hst, htr]
          rw [trimLoop, hpass]
          simp only [Bool.false_eq_true, if_false]
          rw [List.dropWhile_cons, if_pos hbad]
          apply ih
          · simp at hlen ⊢; omega
          · intro x hx; exact hwf x (by simp [hx])
          · obtain ⟨x, hx, hxg⟩ := hgood
            rcases List.mem_cons.mp hx with hxt | hxr
            · rw [hxt] at hxg; rw [hxg] at hbad; exact absurd hbad (by simp)
            · exact ⟨x, hxr, hxg⟩
        · have htr' : startsTR t = false := by revert htr; cases startsTR t <;> simp
          have hbad : badTurn t = false := by simp [badTurn, hrole, htr']
          have hpass : trimPass (t :: rest) = some (t :: rest, true) := by
            simp [trimPass, hrole, hst, htr']
          rw [trimLoop, hpass]
          simp only [if_true]
          rw [List.dropWhile_cons, if_neg (by simp [hbad])]
      · have hbad : badTurn t = true := by
          cases hr : t.role with
          | user => exact absurd hr hrole
          | assistant => simp [badTurn, hr]
        cases rest with
        | nil =>
          obtain ⟨x, hx, hxg⟩ := hgood
          have : x = t := by simpa using hx
          rw [this] at hxg
          rw [hxg] at hbad
          exact absurd hbad (by simp)
        | cons u rest1 =>
          have hstu : startsToolResult u = some (startsTR u) :=
            startsToolResult_eq u (hwf u (by simp))
          by_cases htr : startsTR u = true
          · have hbadu : badTurn u = true := by simp [badTurn, htr]
            have hpass : trimPass (t :: u :: rest1) = some (rest1, false) := by
              simp [trimPass, hrole, hstu, htr]
            rw [trimLoop, hpass]
            simp only [Bool.false_eq_true, if_false]
            rw [List.dropWhile_cons, if_pos hbad, List.dropWhile_cons, if_pos hbadu]
            apply ih
            · simp at hlen ⊢; omega
            · intro x hx; exact hwf x (by simp [hx])
            · obtain ⟨x, hx, hxg⟩ := hgood
              rcases List.mem_cons.mp hx with hxt | hxr
              · rw [hxt] at hxg; rw [hxg] at hbad; exact absurd hbad (by simp)
              · rcases List.mem_cons.mp hxr with hxu | hxr1
                · rw [hxu] at hxg; rw [hxg] at hbadu; exact absurd hbadu (by simp)
                · exact ⟨x, hxr1, hxg⟩
          · have hpass : trimPass (t :: u :: rest1) = some (u :: rest1, false) := by
              simp [trimPass, hrole, hstu]
              revert htr; cases startsTR u <;> simp
            rw [trimLoop, hpass]
            simp only [Bool.false_eq_true, if_false]
            rw [List.dropWhile_cons, if_pos hbad]
            apply ih
            · simp at hlen ⊢; omega
            · intro x hx; exact hwf x (by simp [hx])
            · obtain ⟨x, hx, hxg⟩ := hgood
              rcases List.mem_cons.mp hx with hxt | hxr
              · rw [hxt] at hxg; rw [hxg] at hbad; exact absurd hbad (by simp)
              · exact ⟨x, hxr, hxg⟩

/-- C7 counterexample: a persisted document holding one assistant turn
parses, yet loading raises an uncaught IndexError in the trimming loop
(modelled none) instead of returning the trimmed window the claim
promises (here the empty window). -/
theorem read_history_claim_cex :
    read_history_from_file (some [⟨Role.assistant, TurnContent.str "hi"⟩]) = none ∧
    read_history_from_file (some [⟨Role.assistant, TurnContent.str "hi"⟩]) ≠
      some (historyWindowSpec [⟨Role.assistant, TurnContent.str "hi"⟩]) :=
  ⟨rfl, by decide⟩

/-- C7 (amended): provided every turn of the ten most recent turns has
well-formed content (a string or a non-empty block list) and at least one
of them is a valid starting turn (role user, content not beginning with a
tool-result block), loading returns the window obtained by dropping
leading invalid turns; and a document that fails to parse loads as the
empty history instead of aborting. -/
theorem read_history_spec (h : List Turn)
    (hwf : ∀ t ∈ lastN 10 h, contentWF t = true)
    (hgood : ∃ t ∈ lastN 10 h, badTurn t = false) :
    read_history_from_file (some h) = some (historyWindowSpec h) ∧
    read_history_from_file none = some [] := by
  refine ⟨?_, rfl⟩
  unfold read_history_from_file historyWindowSpec
  apply trimLoop_eq_dropWhile
  · have hle : (lastN 10 h).length ≤ h.length := by
      simp [lastN]
    omega
  · exact hwf
  · exact hgood

/-- Witness for C7: a two-turn document whose first turn is assistant and
second is user loads as the one-turn window holding the user turn. -/
theorem read_history_spec_witness :
    read_history_from_file
        (some [⟨Role.assistant, TurnContent.str "a"⟩, ⟨Role.user, TurnContent.str "b"⟩]) =
      some [⟨Role.user, TurnContent.str "b"⟩] ∧
    read_history_from_file none = some [] := by
  obtain ⟨h1, h2⟩ := read_history_spec
    [⟨Role.assistant, TurnContent.str "a"⟩, ⟨Role.user, TurnContent.str "b"⟩]
    (by decide) (by decide)
  exact ⟨by rw [h1]; rfl, h2⟩

/-! ### Claim theorems: the emulator -/

theorem dropWhile_head_false {p : Char → Bool} :
    ∀ (l : List Char) (c : Char) (cs : List Char), l.dropWhile p = c :: cs → p c = false := by
  intro l
  induction l with
  | nil => intro c cs h; simp at h
  | cons a t ih =>
    intro c cs h
    rw [List.dropWhile_cons] at h
    by_cases hpa : p a = true
    · rw [if_pos hpa] at h; exact ih c cs h
    · rw [if_neg hpa] at h
      injection h with h1 _
      subst h1
      cases hb : p a with
      | false => rfl
      | true => exact absurd hb hpa

theorem stripChars_prefix (p : Char → Bool) (l : List Char) :
    stripChars p l <+: l.dropWhile p := by
  have hrw : stripChars p l = (l.dropWhile p).rdropWhile p := rfl
  rw [hrw]
  exact List.rdropWhile_prefix p _

theorem stripChars_head_false (p : Char → Bool) (l : List Char) (c : Char) (cs : List Char)
    (h : stripChars p l = c :: cs) : p c = false := by
  obtain ⟨t, ht⟩ := stripChars_prefix p l
  rw [h] at ht
  exact dropWhile_head_false l c (cs ++ t) ht.symm

theorem string_eq_empty_iff (s : String) : s = "" ↔ s.data = [] := by
  constructor
  · intro h; rw [h]
  · intro h
    cases s with
    | mk data =>
      cases data with
      | nil => rfl
      | cons c cs => simp at h

theorem splitWsAux_ne_nil : ∀ (l acc : List Char), acc ≠ [] → splitWsAux l acc ≠ [] := by
  intro l
  induction l with
  | nil =>
    intro acc h
    cases acc with
    | nil => exact absurd rfl h
    | cons a as => simp [splitWsAux]
  | cons c cs ih =>
    intro acc h
    by_cases hc : pyIsSpace c = true
    · cases acc with
      | nil => exact absurd rfl h
      | cons a as => simp [splitWsAux, hc]
    · have hc' : pyIsSpace c = false := by revert hc; cases pyIsSpace c <;> simp
      simp only [splitWsAux, hc', Bool.false_eq_true, if_false]
      exact ih (c :: acc) (by simp)

theorem pySplitMax1_shape (s : String) (hne : s.data.dropWhile pyIsSpace ≠ []) :
    (∃ w, pySplitMax1 s = [String.mk w]) ∨
    (∃ w d ds, pySplitMax1 s = [String.mk w, String.mk (d :: ds)] ∧ pyIsSpace d = false) := by
  unfold pySplitMax1
  have hemp : (s.data.dropWhile pyIsSpace).isEmpty = false := by
    cases hl : s.data.dropWhile pyIsSpace with
    | nil => exact absurd hl hne
    | cons c cs => rfl
  cases hr : ((s.data.dropWhile pyIsSpace).dropWhile fun c => !(pyIsSpace c)).dropWhile pyIsSpace with
  | nil =>
    left
    refine ⟨(s.data.dropWhile pyIsSpace).takeWhile (fun c => !(pyIsSpace c)), ?_⟩
    simp [hemp, hr]
  | cons d ds =>
    right
    refine ⟨(s.data.dropWhile pyIsSpace).takeWhile (fun c => !(pyIsSpace c)), d, ds, ?_,
      dropWhile_head_false _ d ds hr⟩
    simp [hemp, hr]

theorem baseAndArgs_isSome (cmd : String) (h : pyStrip cmd ≠ "") :
    (baseAndArgs cmd).isSome = true := by
  have hd : (pyStrip cmd).data ≠ [] := fun hh =>
    h ((string_eq_empty_iff (pyStrip cmd)).mpr hh)
  obtain ⟨c, cs, hcc⟩ : ∃ c cs, (pyStrip cmd).data = c :: cs := by
    cases hcase : (pyStrip cmd).data with
    | nil => exact absurd hcase hd
    | cons c cs => exact ⟨c, cs, rfl⟩
  have hcf : pyIsSpace c = false := stripChars_head_false pyIsSpace cmd.data c cs hcc
  have hne : (pyStrip cmd).data.dropWhile pyIsSpace ≠ [] := by
    rw [hcc, List.dropWhile_cons, if_neg (by simp [hcf])]
    simp
  rcases pySplitMax1_shape (pyStrip cmd) hne with ⟨w, hw⟩ | ⟨w, d, ds, hw, hdns⟩
  · unfold baseAndArgs
    rw [hw]
    rfl
  · unfold baseAndArgs
    rw [hw]
    by_cases hgit : String.mk w = "git"
    · have haux : splitWsAux (d :: ds) [] = splitWsAux ds [d] := by
        simp [splitWsAux, hdns]
      have hne2 : splitWsAux ds [d] ≠ [] := splitWsAux_ne_nil ds [d] (by simp)
      cases hxx : splitWsAux ds [d] with
      | nil => exact absurd hxx hne2
      | cons x xs =>
        have hsp : pySplitWs (String.mk (d :: ds)) =
            String.mk x :: xs.map (fun l => String.mk l) := by
          simp [pySplitWs, haux, hxx]
        simp [hgit, hsp]
    · simp [hgit]

/-- C4 counterexample: on a blank command line execute never returns: the
Python code indexes the first element of an empty split and raises
IndexError (modelled by none), so the claim that every input string
yields a string result fails. -/
theorem execute_blank_raises :
    execute defaultEm "" = none ∧ execute defaultEm " " = none := ⟨rfl, rfl⟩

/-- C4 (amended): for every state and every command line that is not
whitespace-only, execute returns a string result without signalling a
fault; and when neither the derived (possibly compound) base command nor
the whole command line is registered, the result is the deterministic
command-not-found message naming the base command, with the state
unchanged. -/
theorem execute_total_and_notfound (st : EmState) (cmd : String) :
    (pyStrip cmd ≠ "" → (execute st cmd).isSome = true) ∧
    (∀ base args, baseAndArgs cmd = some (base, args) → isBuiltin base = false →
      isBuiltin cmd = false →
      execute st cmd = some ("Command not found: " ++ base, st)) := by
  constructor
  · intro h
    have hb := baseAndArgs_isSome cmd h
    unfold execute
    cases hba : baseAndArgs cmd with
    | none => rw [hba] at hb; simp at hb
    | some p =>
      cases p with
      | mk b a =>
        show (if isBuiltin b = true then some (runBuiltin b st a)
              else if isBuiltin cmd = true then some (runBuiltin cmd st "")
              else some ("Command not found: " ++ b, st)).isSome = true
        split_ifs <;> rfl
  · intro base args hba h1 h2
    unfold execute
    rw [hba]
    simp [h1, h2]

/-- Witness for C4: an unregistered two-word command is accepted and
answered with the command-not-found message naming its base command. -/
theorem execute_total_and_notfound_witness :
    (execute defaultEm "doesnotexist now").isSome = true ∧
    execute defaultEm "doesnotexist now" = some ("Command not found: doesnotexist", defaultEm) :=
  ⟨(execute_total_and_notfound defaultEm "doesnotexist now").1 (by decide),
   (execute_total_and_notfound defaultEm "doesnotexist now").2 "doesnotexist" "now" rfl rfl rfl⟩

theorem foldl_resolveStep_eq :
    ∀ (ps acc : List String), ps.foldl resolveStep acc = (stackRun ps acc.reverse).reverse := by
  intro ps
  induction ps with
  | nil => intro acc; simp [stackRun]
  | cons p ps ih =>
    intro acc
    rw [List.foldl_cons]
    by_cases hpe : p = ""
    · rw [show resolveStep acc p = acc by simp [resolveStep, hpe]]
      rw [show stackRun (p :: ps) acc.reverse = stackRun ps acc.reverse by simp [stackRun, hpe]]
      exact ih acc
    · by_cases hpd : p = "."
      · rw [show resolveStep acc p = acc by simp [resolveStep, hpd]]
        rw [show stackRun (p :: ps) acc.reverse = stackRun ps acc.reverse by simp [stackRun, hpd]]
        exact ih acc
      · by_cases hpp : p = ".."
        · rw [show resolveStep acc p = acc.dropLast by simp [resolveStep, hpe, hpd, hpp]]
          rw [show stackRun (p :: ps) acc.reverse = stackRun ps acc.reverse.tail by
            simp [stackRun, hpe, hpd, hpp]]
          rw [ih acc.dropLast, List.tail_reverse_eq_reverse_dropLast]
        · rw [show resolveStep acc p = acc ++ [p] by simp [resolveStep, hpe, hpd, hpp]]
          rw [show stackRun (p :: ps) acc.reverse = stackRun ps (p :: acc.reverse) by
            simp [stackRun, hpe, hpd, hpp]]
          rw [ih (acc ++ [p])]
          rw [show (acc ++ [p]).reverse = p :: acc.reverse by simp]

theorem cdResolve_eq_spec (cur t : String) : cdResolve cur t = cdSpecResolve cur t := by
  unfold cdResolve cdSpecResolve
  simp only [foldl_resolveStep_eq, List.reverse_nil]

/-- C5: the cd handler meets its contract: it agrees everywhere with the
spec-side cdSpecFn (stack-style dot-segment resolution included); empty
and tilde targets reset the current directory to the fixed home path;
any other target is resolved against the current directory and validated:
a present path updates the current directory and returns the empty
string, an absent one returns the error message and leaves the state
unchanged; and cd .. from /home/pablo/motionapps on the default tree
lands in /home/pablo. -/
theorem cd_contract (st : EmState) (args : String) :
    emCd st args = cdSpecFn st args ∧
    ((pyStrip args = "" ∨ pyStrip args = "~") →
      emCd st args = ("", ⟨st.fs, homeDir⟩)) ∧
    (pyStrip args ≠ "" → pyStrip args ≠ "~" →
      (pathExists st.fs (cdResolve st.currentDir (pyStrip args)) = true →
        emCd st args = ("", ⟨st.fs, cdResolve st.currentDir (pyStrip args)⟩)) ∧
      (pathExists st.fs (cdResolve st.currentDir (pyStrip args)) = false →
        emCd st args = (cdError (pyStrip args), st))) ∧
    emCd ⟨defaultFs, "/home/pablo/motionapps"⟩ ".." = ("", ⟨defaultFs, "/home/pablo"⟩) := by
  refine ⟨?_, ?_, ?_, by rfl⟩
  · simp only [emCd, cdSpecFn, cdResolve_eq_spec]
  · intro h
    rcases h with h | h <;> simp [emCd, h]
  · intro hne hnt
    have hc : (decide (pyStrip args = "") || decide (pyStrip args = "~")) = false := by
      simp [hne, hnt]
    constructor
    · intro hex
      simp [emCd, hc, hex]
    · intro hex
      simp [emCd, hc, hex]

/-- Witness for C5: cd to the absent path /nonexistent reports the error
and leaves the default state unchanged, and cd .. walks up one level. -/
theorem cd_contract_witness :
    emCd defaultEm "/nonexistent" = (cdError "/nonexistent", defaultEm) ∧
    emCd ⟨defaultFs, "/home/pablo/motionapps"⟩ ".." = ("", ⟨defaultFs, "/home/pablo"⟩) :=
  ⟨((cd_contract defaultEm "/nonexistent").2.2.1 (by decide) (by decide)).2 rfl,
   (cd_contract defaultEm "x").2.2.2⟩

theorem lsFirstTarget_eq_find (cur : String) :
    ∀ parts : List String, lsFirstTarget cur parts =
      (match parts.find? (fun p => !(firstCharIs '-' p)) with
       | none => cur
       | some p =>
         if firstCharIs '/' p then p
         else if cur = "/" then "/" ++ p
         else cur ++ "/" ++ p) := by
  intro parts
  induction parts with
  | nil => rfl
  | cons p ps ih =>
    by_cases hd : firstCharIs '-' p = true
    · rw [List.find?_cons_of_neg _ (by simp [hd])]
      rw [show lsFirstTarget cur (p :: ps) = lsFirstTarget cur ps by
        simp [lsFirstTarget, hd]]
      exact ih
    · rw [List.find?_cons_of_pos _ (by simp [hd])]
      have hd' : firstCharIs '-' p = false := by revert hd; cases firstCharIs '-' p <;> simp
      simp [lsFirstTarget, hd']

/-- C6 counterexample: the claim that ls resolves its target the way cd
does fails: from the default state, ls of dot-dot reports a missing path
/home/pablo/.. because the ls code never normalises dot segments, while
the cd-style resolution of the claim would list /home (which exists and
holds pablo). -/
theorem ls_claim_cex :
    (emLs defaultEm "..").1 = lsError "/home/pablo/.." ∧
    (lsClaimCdStyle defaultEm "..").1 = "pablo" ∧
    (emLs defaultEm "..").1 ≠ (lsClaimCdStyle defaultEm "..").1 :=
  ⟨rfl, rfl, by decide⟩

/-- C6 (amended): the ls handler agrees everywhere with the spec-side
lsSpecFn, which joins a relative explicit target to the current directory
without dot-segment normalisation (unlike cd), defaults to the current
directory, sorts the entry names, excludes dot-names unless -a occurs in
the arguments, and reports an error string on a missing path; on the
example tree, ls -a lists .git and README.md sorted while plain ls lists
only README.md. -/
theorem ls_contract :
    (∀ st args, emLs st args = lsSpecFn st args) ∧
    emLs repoEm "-a" = (".git  README.md", repoEm) ∧
    emLs repoEm "" = ("README.md", repoEm) := by
  refine ⟨?_, rfl, rfl⟩
  intro st args
  unfold emLs lsSpecFn
  rw [lsFirstTarget_eq_find]

theorem emCd_fs (st : EmState) (a : String) : (emCd st a).2.fs = st.fs := by
  simp only [emCd]
  split_ifs <;> rfl

theorem emLs_state (st : EmState) (a : String) : (emLs st a).2 = st := by
  simp only [emLs]
  split
  · rfl
  · rfl

theorem emSudo_state (st : EmState) (a : String) : (emSudo st a).2 = st := by
  simp only [emSudo]
  split
  · rfl
  · split_ifs <;> rfl

theorem emUname_state (st : EmState) (a : String) : (emUname st a).2 = st := rfl

theorem runBuiltin_fs (n : String) (st : EmState) (a : String) :
    (runBuiltin n st a).2.fs = st.fs := by
  unfold runBuiltin
  split_ifs
  · rfl
  · exact emCd_fs st a
  · rw [emLs_state]
  · rfl
  · rfl
  · rw [emSudo_state]
  · rw [emUname_state]
  · rfl

theorem runBuiltin_state (n : String) (st : EmState) (a : String) (h : n ≠ "cd") :
    (runBuiltin n st a).2 = st := by
  unfold runBuiltin
  split_ifs
  · rfl
  · exact emLs_state st a
  · rfl
  · rfl
  · exact emSudo_state st a
  · exact emUname_state st a
  · rfl

/-- C10: execute never mutates the filesystem tree, and every dispatch
other than cd (the other built-ins and the command-not-found path) also
leaves the current directory, hence the whole state, unchanged; a
successful cd can change only the current directory. -/
theorem execute_frame (st : EmState) (cmd : String) (out : String) (st' : EmState)
    (hex : execute st cmd = some (out, st')) :
    st'.fs = st.fs ∧ (dispatchedCd cmd = false → st' = st) := by
  unfold execute at hex
  cases hba : baseAndArgs cmd with
  | none => rw [hba] at hex; simp at hex
  | some p =>
    cases p with
    | mk b a =>
      rw [hba] at hex
      have hex' : (if isBuiltin b = true then some (runBuiltin b st a)
                   else if isBuiltin cmd = true then some (runBuiltin cmd st "")
                   else some ("Command not found: " ++ b, st)) = some (out, st') := hex
      by_cases hb : isBuiltin b = true
      · rw [if_pos hb] at hex'
        injection hex' with hp
        have hst' : st' = (runBuiltin b st a).2 := by rw [hp]
        constructor
        · rw [hst', runBuiltin_fs]
        · intro hd
          have hbc : b ≠ "cd" := by
            intro hbcd
            unfold dispatchedCd at hd
            rw [hba] at hd
            subst hbcd
            simp [hb] at hd
          rw [hst', runBuiltin_state b st a hbc]
      · rw [if_neg hb] at hex'
        by_cases hc : isBuiltin cmd = true
        · rw [if_pos hc] at hex'
          injection hex' with hp
          have hst' : st' = (runBuiltin cmd st "").2 := by rw [hp]
          constructor
          · rw [hst', runBuiltin_fs]
          · intro hd
            have hcmd : cmd ≠ "cd" := by
              intro hcd
              unfold dispatchedCd at hd
              rw [hba] at hd
              subst hcd
              simp [hb, hc] at hd
            rw [hst', runBuiltin_state cmd st "" hcmd]
        · rw [if_neg hc] at hex'
          injection hex' with hp
          have hsnd : st = st' := congrArg Prod.snd hp
          exact ⟨by rw [← hsnd], fun _ => by rw [← hsnd]⟩

/-- Witness for C10: executing pwd on the default state keeps both the
tree and the current directory. -/
theorem execute_frame_witness :
    defaultEm.fs = defaultEm.fs ∧ (dispatchedCd "pwd" = false → defaultEm = defaultEm) :=
  execute_frame defaultEm "pwd" "/home/pablo" defaultEm rfl

end DevOps
